import Mathlib

/-!
Shallow embedding of eRPC's `RawTransport` datapath
(src/transport_impl/raw/raw_transport_datapath.cc) and proofs about it.

The datapath has three operations: `tx_burst` (build a batch of send work
requests with scatter-gather entries, stamp the IPv4/UDP length fields into
each packet header, post the batch as one linked chain), `rx_burst`
(harvest receive completions; in the `kDumb` emulated mode this is done by
cycle-counter snapshot deltas), and `post_recvs` (accumulate consumed
receive buffers and replenish the NIC in batches).

Machine integers: the C++ code computes with `size_t`; we model `size_t`
values as `Nat` together with explicit wraparound helpers (`sub64`,
`add64`, `mul64`) applied exactly where the source performs `size_t`
arithmetic.  Hardware calls (`ibv_post_send`, `ibv_post_recv`,
`wq_family->recv_burst`, `ibv_poll_cq`) are oracles: their integer return
codes are parameters, and the list of submissions the code makes is
returned as data.  Process termination via `exit(-1)` is modelled by a
`fatal` flag on the result (when it is set, the code after the `exit` call
did not run).
-/

namespace erpc

/-- Width of `size_t` values: all machine arithmetic is modulo `2 ^ 64`
(the numeral is `2 ^ 64`). -/
def SIZE_T_MOD : Nat := 18446744073709551616

/-- Helper for `size_t` subtraction `a - b` (wraparound semantics) for
`a, b < SIZE_T_MOD`. -/
def sub64 (a b : Nat) : Nat := (a + SIZE_T_MOD - b) % SIZE_T_MOD

/-- Helper for `size_t` addition with wraparound. -/
def add64 (a b : Nat) : Nat := (a + b) % SIZE_T_MOD

/-- Helper for `size_t` multiplication with wraparound. -/
def mul64 (a b : Nat) : Nat := (a * b) % SIZE_T_MOD

/-- Model of `htons` on a 16-bit value: byte-swap of the low 16 bits of
the argument (the stored, network-byte-order representation on a
little-endian host). -/
def htons (x : Nat) : Nat :=
  let v := x % 65536
  (v % 256) * 256 + v / 256

/-- Update one slot of an array modelled as a function `Nat → α`. -/
def upd {α : Type} (f : Nat → α) (i : Nat) (v : α) : Nat → α :=
  fun j => if j = i then v else f j

/-- Configuration constants of a `RawTransport` instance.  In the source
these are `static constexpr` members of the class (declared in
`raw_transport.h`, outside the datapath file); they are fixed for the
instance's lifetime. -/
structure Config where
  kMaxDataPerPkt : Nat
  kMaxInline : Nat
  kPostlist : Nat
  kNumRxRingEntries : Nat
  kRecvCQDepth : Nat
  kRecvSize : Nat
  kStridesPerWQE : Nat
  kRecvSlack : Nat
  kRQDepth : Nat
  sizeof_pkthdr : Nat
  kTesting : Bool
  kDumb : Bool

/-- Modelled from the spec: the mlx5 driver constant
`MLX5_ETH_INLINE_HEADER_SIZE` (the inline-send byte threshold offset); its
declaration is outside the datapath source.  Its concrete value does not
matter for any claim. -/
def MLX5_ETH_INLINE_HEADER_SIZE : Nat := 18

/-- Flag bit for `IBV_SEND_INLINE` (driver constant, outside the datapath
source; its concrete value does not matter for any claim). -/
def IBV_SEND_INLINE : Nat := 8

/-- Size of `eth_hdr_t` in bytes (Ethernet header, 14 bytes per the spec's
wire-header layout). -/
def sizeof_eth_hdr : Nat := 14

/-- Size of `ipv4_hdr_t` in bytes (IPv4 header, 20 bytes per the spec's
wire-header layout). -/
def sizeof_ipv4_hdr : Nat := 20

/-- Model of `MsgBuffer`: what the datapath reads of it.  `data_size` is
the application payload byte count; `lkey` the registered memory key. -/
structure MsgBuffer where
  data_size : Nat
  lkey : Nat
  valid : Bool

/-- Modelled from the spec: `MsgBuffer::get_pkt_size<kMaxDataPerPkt>(n)`
(declared in `msg_buffer.h`, outside the datapath source) — the byte size
of the `n`-th packet: the packet-header region plus the packet's data
chunk, the latter being at most `kMaxDataPerPkt` bytes and at most the
message bytes remaining past offset `n * kMaxDataPerPkt`. -/
def get_pkt_size (cfg : Config) (mb : MsgBuffer) (n : Nat) : Nat :=
  cfg.sizeof_pkthdr + min cfg.kMaxDataPerPkt (mb.data_size - n * cfg.kMaxDataPerPkt)

/-- Model of `tx_burst_item_t`: one outgoing packet descriptor.
`routing_info` stands for the 40-byte precomputed routing-header template
(opaque: only copied verbatim). -/
structure TxItem where
  msg_buffer : MsgBuffer
  pkt_index : Nat
  routing_info : Nat
  drop : Bool

/-- Where a scatter-gather entry points: the header region of packet `n`
of the message buffer, or the data region at a byte offset. -/
inductive SgeAddr : Type
  | pkthdr (n : Nat)
  | buf (offset : Nat)
deriving DecidableEq

/-- Model of `ibv_sge`: one scatter-gather entry. -/
structure SGE where
  addr : SgeAddr
  length : Nat
  lkey : Nat

/-- Model of the fields of `ibv_send_wr` the datapath touches.  `next` is
the linked-chain successor, as an index into the `send_wr` array (`none`
models a null pointer). -/
structure SendWR where
  next : Option Nat
  num_sge : Nat
  send_flags : Nat

/-- The per-packet header fields stamped by `tx_burst` (lines 57-71 of the
source).  `frame_copied` is the routing template copied verbatim;
`ipv4_tot_len` and `udp_len` hold the stored 16-bit values (network byte
order, i.e. the image of `htons`); `ipv4_dst_zeroed` records whether the
test-build drop path zeroed the destination address. -/
structure PktHdrStamp where
  frame_copied : Nat
  ipv4_tot_len : Nat
  ipv4_dst_zeroed : Bool
  udp_len : Nat

/-- Mutable arrays of the transmit side: `send_wr[]` and `send_sgl[][2]`,
modelled as total functions from the index. -/
structure TxState where
  send_wr : Nat → SendWR
  send_sgl : Nat → SGE × SGE

/-- Result of processing one descriptor in the `tx_burst` loop. -/
structure ItemResult where
  wr : SendWR
  sgl : SGE × SGE
  pkt_size : Nat
  stamp : PktHdrStamp

/-- Header stamping, lines 57-71 of the source: copy the 40-byte routing
template, set `ipv4_hdr->tot_len = htons(pkt_size - sizeof(eth_hdr_t))`,
zero the destination IP when `kTesting && item.drop`, and set
`udp_hdr->len = htons(pkt_size - sizeof(eth_hdr_t) - sizeof(ipv4_hdr_t))`.
All subtractions are `size_t` subtractions. -/
def mk_stamp (cfg : Config) (item : TxItem) (pkt_size : Nat) : PktHdrStamp :=
  { frame_copied := item.routing_info
    ipv4_tot_len := htons (sub64 pkt_size sizeof_eth_hdr)
    ipv4_dst_zeroed := cfg.kTesting && item.drop
    udp_len := htons (sub64 (sub64 pkt_size sizeof_eth_hdr) sizeof_ipv4_hdr) }

/-- One iteration of the `tx_burst` loop (lines 7-79 of the source) on
descriptor `item`, given the current contents `wr0`/`sgl0` of the
work-request and scatter-gather slots for this batch position.
`sig_flag` models the value returned by `get_signaled_flag()` (the
configurable signaling policy, declared outside the datapath source). -/
def process_item (cfg : Config) (sig_flag : Nat) (item : TxItem)
    (wr0 : SendWR) (sgl0 : SGE × SGE) : ItemResult :=
  let mb := item.msg_buffer
  let flags := sig_flag
  if item.pkt_index = 0 then
    -- First packet: a single SGE spanning header region through data chunk.
    let len := get_pkt_size cfg mb 0
    let e0 : SGE := { addr := SgeAddr.pkthdr 0, length := len, lkey := mb.lkey }
    let flags :=
      if 0 < cfg.kMaxInline ∧ len ≤ cfg.kMaxInline + MLX5_ETH_INLINE_HEADER_SIZE
      then Nat.lor flags IBV_SEND_INLINE else flags
    let pkt_size := len
    { wr := { wr0 with send_flags := flags, num_sge := 1 }
      sgl := (e0, sgl0.2)
      pkt_size := pkt_size
      stamp := mk_stamp cfg item pkt_size }
  else
    -- Continuation packet: two SGEs, header region plus a data slice.
    let e0 : SGE := { addr := SgeAddr.pkthdr item.pkt_index,
                      length := cfg.sizeof_pkthdr, lkey := mb.lkey }
    let offset := mul64 item.pkt_index cfg.kMaxDataPerPkt
    let e1 : SGE := { addr := SgeAddr.buf offset,
                      length := min cfg.kMaxDataPerPkt (sub64 mb.data_size offset),
                      lkey := mb.lkey }
    let pkt_size := add64 e0.length e1.length
    { wr := { wr0 with send_flags := flags, num_sge := 2 }
      sgl := (e0, e1)
      pkt_size := pkt_size
      stamp := mk_stamp cfg item pkt_size }

/-- The `tx_burst` descriptor loop: processes the items starting at batch
position `i`, updating the `send_wr`/`send_sgl` slots in place and
collecting each descriptor's computed packet size and stamped header. -/
def tx_burst_go (cfg : Config) (sig : Nat → Nat) :
    List TxItem → Nat → TxState → TxState × List (Nat × PktHdrStamp)
  | [], _, st => (st, [])
  | item :: rest, i, st =>
    let r := process_item cfg (sig i) item (st.send_wr i) (st.send_sgl i)
    let st1 : TxState :=
      { send_wr := upd st.send_wr i r.wr, send_sgl := upd st.send_sgl i r.sgl }
    let t := tx_burst_go cfg sig rest (i + 1) st1
    (t.1, (r.pkt_size, r.stamp) :: t.2)

/-- Result of `tx_burst`: the final array state, the per-descriptor
(packet size, stamped header) outputs, the number of `ibv_post_send`
invocations made, and whether the process terminated fatally. -/
structure TxResult where
  state : TxState
  outs : List (Nat × PktHdrStamp)
  post_calls : Nat
  fatal : Bool

/-- Model of `RawTransport::tx_burst` (lines 5-92 of the source).
`post_ret` is the oracle return code of `ibv_post_send`.  After the loop,
the chain is broken at `send_wr[num_pkts - 1]` (a `size_t` index), the
chain is posted once, and — only if the post succeeded, since otherwise
the process exits — the broken link is restored to `&send_wr[num_pkts]`. -/
def tx_burst (cfg : Config) (sig : Nat → Nat) (post_ret : Int)
    (items : List TxItem) (st0 : TxState) : TxResult :=
  let num_pkts := items.length
  let p := tx_burst_go cfg sig items 0 st0
  let st1 := p.1
  let li := sub64 num_pkts 1
  let st2 : TxState :=
    { st1 with send_wr := upd st1.send_wr li { st1.send_wr li with next := none } }
  if post_ret ≠ 0 then
    { state := st2, outs := p.2, post_calls := 1, fatal := true }
  else
    let restored := upd st2.send_wr li { st2.send_wr li with next := some num_pkts }
    let st3 : TxState := { st2 with send_wr := restored }
    { state := st3, outs := p.2, post_calls := 1, fatal := false }

/-- The transmit array state at the moment `ibv_post_send` is invoked
(line 84): the loop has run and the chain is broken at the last
descriptor of the batch. -/
def tx_burst_post_state (cfg : Config) (sig : Nat → Nat)
    (items : List TxItem) (st0 : TxState) : TxState :=
  let num_pkts := items.length
  let st1 := (tx_burst_go cfg sig items 0 st0).1
  let li := sub64 num_pkts 1
  { st1 with send_wr := upd st1.send_wr li { st1.send_wr li with next := none } }

/-- The indices at which `tx_burst(·, num_pkts)` accesses the `send_wr`
array: `send_wr[i]` for each loop iteration `i < num_pkts`, the
chain-breaking write `send_wr[num_pkts - 1]`, the chain-restoring write
`send_wr[num_pkts - 1]`, and the restore target address
`&send_wr[num_pkts]` — the two `num_pkts - 1` indices being `size_t`
subtractions. -/
def tx_burst_wr_indices (num_pkts : Nat) : List Nat :=
  List.range num_pkts ++ [sub64 num_pkts 1, sub64 num_pkts 1, num_pkts]

/-- Mutable state of the receive poller in emulated (`kDumb`) mode:
`recv_head` (ring head index), `recv_backlog` (completions inferred but
not yet consumed), `cqe_idx` (index of the counter slot being watched),
and `prev_snapshot` (the previously observed cycle-counter value). -/
structure RxState where
  recv_head : Nat
  recv_backlog : Nat
  cqe_idx : Nat
  prev_snapshot : Nat

/-- Modelled from the spec: `RawTransport::get_cqe_cycle_delta` (declared
outside the datapath source) — the forward cyclic delta between the
previous and current snapshots, modulo the receive-ring size `R`. -/
def get_cqe_cycle_delta (R : Nat) (prev cur : Nat) : Nat :=
  ((cur + R) - prev) % R

/-- The receive-head advance loop of `rx_burst` (lines 107-118): one step
`recv_head = (recv_head + 1) % R` per consumed completion. -/
def advance_head (R : Nat) : Nat → Nat → Nat
  | h, 0 => h
  | h, k + 1 => advance_head R ((h + 1) % R) k

/-- Model of `RawTransport::rx_burst` (lines 96-128 of the source).
`cur_snapshot` is the oracle value read by `snapshot_cqe` from the
watched counter slot; `poll_ret` is the oracle return of `ibv_poll_cq`
(used only in the non-`kDumb` branch, where it is at most `kPostlist`).
Returns the new state and the completion count. -/
def rx_burst (cfg : Config) (poll_ret : Nat) (st : RxState)
    (cur_snapshot : Nat) : RxState × Nat :=
  if cfg.kDumb then
    let delta := get_cqe_cycle_delta cfg.kNumRxRingEntries st.prev_snapshot cur_snapshot
    if delta = 0 ∨ cfg.kNumRxRingEntries ≤ delta then (st, 0)
    else
      let backlog := st.recv_backlog + delta
      let comps_clamped := if backlog < cfg.kPostlist then backlog else cfg.kPostlist
      let backlog2 := backlog - comps_clamped
      let head := advance_head cfg.kNumRxRingEntries st.recv_head comps_clamped
      ({ recv_head := head
         recv_backlog := backlog2
         cqe_idx := (st.cqe_idx + 1) % cfg.kRecvCQDepth
         prev_snapshot := cur_snapshot }, comps_clamped)
  else
    (st, poll_ret)

/-- Mutable state of the receive replenisher: the pending-post counter
`recvs_to_post`, the striding-buffer index `mp_sge_idx`, the receive ring
head `recv_head`, and — for the compatibility path — the linked-list
successor of each `recv_wr` ring entry (`none` models a null pointer). -/
structure RecvState where
  recvs_to_post : Nat
  mp_sge_idx : Nat
  recv_head : Nat
  recv_wr_next : Nat → Option Nat

/-- One hardware submission made by `post_recvs`: a striding
`recv_burst` of the multi-packet SGE at an index, a fast-path
`ibv_post_recv` of the special descriptor encoding a replenish count, or
a compatibility-path `ibv_post_recv` of the spliced chain from
`recv_wr[first]` through `recv_wr[last]`. -/
inductive RecvPost : Type
  | strided (sge_idx : Nat)
  | fastEnc (num : Nat)
  | chain (first last : Nat)
deriving DecidableEq

/-- Result of `post_recvs`: the new state, the list of hardware
submissions made, and whether the process terminated fatally. -/
structure PostRecvsResult where
  state : RecvState
  posts : List RecvPost
  fatal : Bool

/-- Model of `RawTransport::post_recvs` (lines 130-194 of the source).
`post_ret` is the oracle return of `ibv_post_recv`; `rb_ret` that of
`wq_family->recv_burst` (which the source asserts but otherwise ignores —
`_unused(ret)` — so it never causes a fatal exit).  The source fixes the
local variable `use_fast_recv` to `true` at line 144; it is a parameter
here so that the compatibility branch (lines 165-190), which the source
reaches exactly when that variable is `false`, can be examined. -/
def post_recvs (cfg : Config) (use_fast_recv : Bool) (post_ret rb_ret : Int)
    (num_recvs : Nat) (st : RecvState) : PostRecvsResult :=
  let acc := st.recvs_to_post + num_recvs
  let st1 : RecvState := { st with recvs_to_post := acc }
  if cfg.kDumb then
    if acc < cfg.kStridesPerWQE then { state := st1, posts := [], fatal := false }
    else
      let st2 : RecvState :=
        { st1 with mp_sge_idx := (st1.mp_sge_idx + 1) % cfg.kRQDepth,
                   recvs_to_post := acc - cfg.kStridesPerWQE }
      { state := st2, posts := [RecvPost.strided st1.mp_sge_idx], fatal := false }
  else
    if acc < cfg.kRecvSlack then { state := st1, posts := [], fatal := false }
    else if use_fast_recv then
      let ev := RecvPost.fastEnc acc
      if post_ret ≠ 0 then { state := st1, posts := [ev], fatal := true }
      else
        let st2 : RecvState := { st1 with recvs_to_post := 0 }
        { state := st2, posts := [ev], fatal := false }
    else
      let first_wr_i := st1.recv_head
      let last_wr_i0 := add64 first_wr_i (sub64 acc 1)
      let last_wr_i :=
        if cfg.kRQDepth ≤ last_wr_i0 then last_wr_i0 - cfg.kRQDepth else last_wr_i0
      let temp_wr := st1.recv_wr_next last_wr_i
      let links1 := upd st1.recv_wr_next last_wr_i none
      let ev := RecvPost.chain first_wr_i last_wr_i
      if post_ret ≠ 0 then
        { state := { st1 with recv_wr_next := links1 }, posts := [ev], fatal := true }
      else
        let st2 : RecvState :=
          { st1 with recv_wr_next := upd links1 last_wr_i temp_wr,
                     recv_head := (last_wr_i + 1) % cfg.kRQDepth,
                     recvs_to_post := 0 }
        { state := st2, posts := [ev], fatal := false }

/-! Concrete instances used to evaluate the definitions on closed inputs. -/

/-- A concrete configuration in the fast (non-`kDumb`) mode. -/
def cfgTx : Config :=
  { kMaxDataPerPkt := 1000, kMaxInline := 60, kPostlist := 16
    kNumRxRingEntries := 8, kRecvCQDepth := 3, kRecvSize := 64
    kStridesPerWQE := 2, kRecvSlack := 2, kRQDepth := 8
    sizeof_pkthdr := 48, kTesting := false, kDumb := false }

/-- A concrete configuration in the emulated (`kDumb`) mode. -/
def cfgDumb : Config :=
  { kMaxDataPerPkt := 1000, kMaxInline := 60, kPostlist := 4
    kNumRxRingEntries := 8, kRecvCQDepth := 3, kRecvSize := 64
    kStridesPerWQE := 2, kRecvSlack := 2, kRQDepth := 4
    sizeof_pkthdr := 48, kTesting := false, kDumb := true }

/-- A concrete 2500-byte message buffer. -/
def mb0 : MsgBuffer := { data_size := 2500, lkey := 7, valid := true }

/-- Descriptor for packet 0 of `mb0`. -/
def item0 : TxItem :=
  { msg_buffer := mb0, pkt_index := 0, routing_info := 11, drop := false }

/-- Descriptor for packet 1 of `mb0` (a continuation packet). -/
def item1 : TxItem :=
  { msg_buffer := mb0, pkt_index := 1, routing_info := 11, drop := false }

/-- A concrete 2-descriptor batch. -/
def items2 : List TxItem := [item0, item1]

/-- A blank scatter-gather entry. -/
def sge0 : SGE := { addr := SgeAddr.buf 0, length := 0, lkey := 0 }

/-- A concrete initial transmit array state with the descriptor chain
intact (`send_wr[i].next = &send_wr[i + 1]`). -/
def txSt0 : TxState :=
  { send_wr := fun i => { next := some (i + 1), num_sge := 0, send_flags := 0 }
    send_sgl := fun _ => (sge0, sge0) }

/-- A constant signaling-policy oracle. -/
def sig0 : Nat → Nat := fun _ => 0

/-- A concrete receive-poller state. -/
def rxSt0 : RxState :=
  { recv_head := 2, recv_backlog := 1, cqe_idx := 0, prev_snapshot := 5 }

/-- A fresh replenisher state with nothing pending and unlinked entries. -/
def recvFresh : RecvState :=
  { recvs_to_post := 0, mp_sge_idx := 0, recv_head := 0
    recv_wr_next := fun _ => none }

/-- A replenisher state whose `recv_wr` ring is circularly pre-linked
modulo 8. -/
def recvRing : RecvState :=
  { recvs_to_post := 0, mp_sge_idx := 0, recv_head := 0
    recv_wr_next := fun j => some ((j + 1) % 8) }

/-! Helper lemmas about the machine arithmetic and the `tx_burst` loop. -/

theorem sub64_eq (a b : Nat) (hba : b ≤ a) (ha : a < SIZE_T_MOD) :
    sub64 a b = a - b := by
  simp only [sub64, SIZE_T_MOD] at *
  omega

theorem add64_eq (a b : Nat) (h : a + b < SIZE_T_MOD) : add64 a b = a + b := by
  simp only [add64, SIZE_T_MOD] at *
  omega

theorem mul64_eq (a b : Nat) (h : a * b < SIZE_T_MOD) : mul64 a b = a * b := by
  simp only [mul64, SIZE_T_MOD] at *
  exact Nat.mod_eq_of_lt h

theorem process_item_next (cfg : Config) (s : Nat) (it : TxItem)
    (w : SendWR) (g : SGE × SGE) :
    (process_item cfg s it w g).wr.next = w.next := by
  unfold process_item
  by_cases h : it.pkt_index = 0 <;> simp [h]

theorem process_item_stamp (cfg : Config) (s : Nat) (it : TxItem)
    (w : SendWR) (g : SGE × SGE) :
    (process_item cfg s it w g).stamp =
      mk_stamp cfg it (process_item cfg s it w g).pkt_size := by
  unfold process_item
  by_cases h : it.pkt_index = 0 <;> simp [h]

theorem tx_burst_go_untouched (cfg : Config) (sig : Nat → Nat) :
    ∀ (items : List TxItem) (i : Nat) (st : TxState) (j : Nat), j < i →
      (tx_burst_go cfg sig items i st).1.send_wr j = st.send_wr j ∧
      (tx_burst_go cfg sig items i st).1.send_sgl j = st.send_sgl j := by
  intro items
  induction items with
  | nil => intro i st j _; exact ⟨rfl, rfl⟩
  | cons item rest ih =>
    intro i st j hj
    have hne : j ≠ i := Nat.ne_of_lt hj
    have h := ih (i + 1)
      { send_wr := upd st.send_wr i (process_item cfg (sig i) item
          (st.send_wr i) (st.send_sgl i)).wr
        send_sgl := upd st.send_sgl i (process_item cfg (sig i) item
          (st.send_wr i) (st.send_sgl i)).sgl } j (Nat.lt_succ_of_lt hj)
    simp only [tx_burst_go]
    refine ⟨?_, ?_⟩
    · rw [h.1]; simp [upd, hne]
    · rw [h.2]; simp [upd, hne]

theorem tx_burst_go_next (cfg : Config) (sig : Nat → Nat) :
    ∀ (items : List TxItem) (i : Nat) (st : TxState) (j : Nat),
      ((tx_burst_go cfg sig items i st).1.send_wr j).next = (st.send_wr j).next := by
  intro items
  induction items with
  | nil => intro i st j; rfl
  | cons item rest ih =>
    intro i st j
    simp only [tx_burst_go]
    rw [ih]
    by_cases hj : j = i
    · subst hj; simp [upd, process_item_next]
    · simp [upd, hj]

theorem tx_burst_go_len (cfg : Config) (sig : Nat → Nat) :
    ∀ (items : List TxItem) (i : Nat) (st : TxState),
      (tx_burst_go cfg sig items i st).2.length = items.length := by
  intro items
  induction items with
  | nil => intro i st; rfl
  | cons item rest ih => intro i st; simp only [tx_burst_go, List.length_cons, ih]

theorem tx_burst_go_get (cfg : Config) (sig : Nat → Nat) :
    ∀ (items : List TxItem) (i : Nat) (st : TxState) (k : Nat)
      (hk : k < items.length),
      (tx_burst_go cfg sig items i st).1.send_wr (i + k) =
        (process_item cfg (sig (i + k)) (items.get ⟨k, hk⟩)
          (st.send_wr (i + k)) (st.send_sgl (i + k))).wr ∧
      (tx_burst_go cfg sig items i st).1.send_sgl (i + k) =
        (process_item cfg (sig (i + k)) (items.get ⟨k, hk⟩)
          (st.send_wr (i + k)) (st.send_sgl (i + k))).sgl ∧
      (tx_burst_go cfg sig items i st).2[k]? =
        some ((process_item cfg (sig (i + k)) (items.get ⟨k, hk⟩)
                 (st.send_wr (i + k)) (st.send_sgl (i + k))).pkt_size,
              (process_item cfg (sig (i + k)) (items.get ⟨k, hk⟩)
                 (st.send_wr (i + k)) (st.send_sgl (i + k))).stamp) := by
  intro items
  induction items with
  | nil => intro i st k hk; exact absurd hk (by simp)
  | cons item rest ih =>
    intro i st k hk
    match k with
    | 0 =>
      simp only [tx_burst_go, List.get, Nat.add_zero]
      have hu := tx_burst_go_untouched cfg sig rest (i + 1)
        { send_wr := upd st.send_wr i (process_item cfg (sig i) item
            (st.send_wr i) (st.send_sgl i)).wr
          send_sgl := upd st.send_sgl i (process_item cfg (sig i) item
            (st.send_wr i) (st.send_sgl i)).sgl } i (Nat.lt_succ_self i)
      refine ⟨?_, ?_, ?_⟩
      · rw [hu.1]; simp [upd]
      · rw [hu.2]; simp [upd]
      · simp
    | k + 1 =>
      have hk2 : k < rest.length := by simpa using Nat.lt_of_succ_lt_succ hk
      have harith : i + (k + 1) = (i + 1) + k := by omega
      have h := ih (i + 1)
        { send_wr := upd st.send_wr i (process_item cfg (sig i) item
            (st.send_wr i) (st.send_sgl i)).wr
          send_sgl := upd st.send_sgl i (process_item cfg (sig i) item
            (st.send_wr i) (st.send_sgl i)).sgl } k hk2
      have hne : (i + 1) + k ≠ i := by omega
      simp only [upd, hne, if_neg hne] at h
      simp only [tx_burst_go, List.get, harith]
      exact ⟨h.1, h.2.1, by simpa using h.2.2⟩

theorem tx_burst_outs_eq (cfg : Config) (sig : Nat → Nat) (post_ret : Int)
    (items : List TxItem) (st0 : TxState) :
    (tx_burst cfg sig post_ret items st0).outs =
      (tx_burst_go cfg sig items 0 st0).2 := by
  unfold tx_burst
  by_cases h : post_ret ≠ 0 <;> simp [h]

theorem tx_burst_num_sge_eq (cfg : Config) (sig : Nat → Nat) (post_ret : Int)
    (items : List TxItem) (st0 : TxState) (j : Nat) :
    ((tx_burst cfg sig post_ret items st0).state.send_wr j).num_sge =
      ((tx_burst_go cfg sig items 0 st0).1.send_wr j).num_sge := by
  unfold tx_burst
  by_cases h : post_ret ≠ 0 <;>
    by_cases hj : j = sub64 items.length 1 <;>
      simp [h, upd, hj]

theorem tx_burst_sgl_eq (cfg : Config) (sig : Nat → Nat) (post_ret : Int)
    (items : List TxItem) (st0 : TxState) (j : Nat) :
    (tx_burst cfg sig post_ret items st0).state.send_sgl j =
      (tx_burst_go cfg sig items 0 st0).1.send_sgl j := by
  unfold tx_burst
  by_cases h : post_ret ≠ 0 <;> simp [h]

theorem advance_head_eq (R : Nat) :
    ∀ (k h : Nat), h < R → advance_head R h k = (h + k) % R := by
  intro k
  induction k with
  | zero => intro h hh; simp [advance_head, Nat.mod_eq_of_lt hh]
  | succ k ih =>
    intro h hh
    have hR : 0 < R := by omega
    simp only [advance_head]
    rw [ih ((h + 1) % R) (Nat.mod_lt _ hR), Nat.mod_add_mod]
    congr 1
    omega

/-- Claim C4: in emulated cycle-counter mode, an `rx_burst` call whose
cyclic delta `d` satisfies `0 < d < R` (with `R` the receive-ring size)
adds `d` to the backlog, returns `min (old backlog + d) kPostlist`,
leaves the new backlog equal to `old backlog + d` minus the returned
count, advances the receive head by the returned count modulo `R`,
advances the counter-slot index by one modulo `kRecvCQDepth`, and stores
the current snapshot as the new previous snapshot. -/
theorem rx_burst_progress (cfg : Config) (poll_ret : Nat) (st : RxState)
    (cur : Nat) (hdumb : cfg.kDumb = true)
    (hhead : st.recv_head < cfg.kNumRxRingEntries)
    (hd0 : 0 < get_cqe_cycle_delta cfg.kNumRxRingEntries st.prev_snapshot cur)
    (hdR : get_cqe_cycle_delta cfg.kNumRxRingEntries st.prev_snapshot cur <
           cfg.kNumRxRingEntries) :
    (rx_burst cfg poll_ret st cur).2 =
      min (st.recv_backlog +
            get_cqe_cycle_delta cfg.kNumRxRingEntries st.prev_snapshot cur)
          cfg.kPostlist ∧
    (rx_burst cfg poll_ret st cur).1.recv_backlog =
      st.recv_backlog +
        get_cqe_cycle_delta cfg.kNumRxRingEntries st.prev_snapshot cur -
        (rx_burst cfg poll_ret st cur).2 ∧
    (rx_burst cfg poll_ret st cur).1.recv_head =
      (st.recv_head + (rx_burst cfg poll_ret st cur).2) % cfg.kNumRxRingEntries ∧
    (rx_burst cfg poll_ret st cur).1.cqe_idx =
      (st.cqe_idx + 1) % cfg.kRecvCQDepth ∧
    (rx_burst cfg poll_ret st cur).1.prev_snapshot = cur := by
  have hcond : ¬(get_cqe_cycle_delta cfg.kNumRxRingEntries st.prev_snapshot cur
      = 0 ∨ cfg.kNumRxRingEntries ≤
        get_cqe_cycle_delta cfg.kNumRxRingEntries st.prev_snapshot cur) := by
    omega
  have h2 : (rx_burst cfg poll_ret st cur).2 =
      min (st.recv_backlog +
            get_cqe_cycle_delta cfg.kNumRxRingEntries st.prev_snapshot cur)
          cfg.kPostlist := by
    simp only [rx_burst, hdumb, if_true, if_neg hcond]
    split <;> omega
  have hb : (rx_burst cfg poll_ret st cur).1.recv_backlog =
      st.recv_backlog +
        get_cqe_cycle_delta cfg.kNumRxRingEntries st.prev_snapshot cur -
        (rx_burst cfg poll_ret st cur).2 := by
    simp only [rx_burst, hdumb, if_true, if_neg hcond]
  have hd : (rx_burst cfg poll_ret st cur).1.recv_head =
      (st.recv_head + (rx_burst cfg poll_ret st cur).2) %
        cfg.kNumRxRingEntries := by
    simp only [rx_burst, hdumb, if_true, if_neg hcond]
    exact advance_head_eq cfg.kNumRxRingEntries _ st.recv_head hhead
  have hc : (rx_burst cfg poll_ret st cur).1.cqe_idx =
      (st.cqe_idx + 1) % cfg.kRecvCQDepth := by
    simp only [rx_burst, hdumb, if_true, if_neg hcond]
  have hp : (rx_burst cfg poll_ret st cur).1.prev_snapshot = cur := by
    simp only [rx_burst, hdumb, if_true, if_neg hcond]
  exact ⟨h2, hb, hd, hc, hp⟩

/-- Witness for claim C4 at a concrete input: ring size 8, previous
snapshot 5, current snapshot 7 (delta 2), backlog 1, batch cap 4. -/
theorem rx_burst_progress_w :
    (rx_burst cfgDumb 0 rxSt0 7).2 = 3 ∧
    (rx_burst cfgDumb 0 rxSt0 7).1.recv_head = 5 ∧
    (rx_burst cfgDumb 0 rxSt0 7).1.recv_backlog = 0 ∧
    (rx_burst cfgDumb 0 rxSt0 7).1.cqe_idx = 1 ∧
    (rx_burst cfgDumb 0 rxSt0 7).1.prev_snapshot = 7 := by
  have h := rx_burst_progress cfgDumb 0 rxSt0 7 rfl (by decide) (by decide)
    (by decide)
  refine ⟨?_, ?_, ?_, ?_, h.2.2.2.2⟩
  · rw [h.1]; decide
  · rw [h.2.2.1, h.1]; decide
  · rw [h.2.1, h.1]; decide
  · rw [h.2.2.2.1]; decide

/-- Claim C5: in emulated cycle-counter mode, an `rx_burst` call whose
cyclic delta is zero or at least the receive-ring size returns 0 and
mutates no state: head, backlog, previous snapshot and counter-slot index
are all unchanged. -/
theorem rx_burst_stale_noop (cfg : Config) (poll_ret : Nat) (st : RxState)
    (cur : Nat) (hdumb : cfg.kDumb = true)
    (h : get_cqe_cycle_delta cfg.kNumRxRingEntries st.prev_snapshot cur = 0 ∨
         cfg.kNumRxRingEntries ≤
           get_cqe_cycle_delta cfg.kNumRxRingEntries st.prev_snapshot cur) :
    rx_burst cfg poll_ret st cur = (st, 0) := by
  simp only [rx_burst, hdumb, if_true, if_pos h]

/-- Witness for claim C5 at a concrete input: current snapshot equal to
the previous one, so the delta is zero. -/
theorem rx_burst_stale_noop_w : rx_burst cfgDumb 0 rxSt0 5 = (rxSt0, 0) :=
  rx_burst_stale_noop cfgDumb 0 rxSt0 5 rfl (Or.inl (by decide))

/-- Claim C6: `post_recvs` calls that leave the accumulated pending count
below the configured threshold (the stride unit in striding mode, the
slack threshold otherwise) perform no hardware post and only accumulate;
a call that reaches the threshold performs exactly one hardware post and
resets the pending counter — to `accumulated - kStridesPerWQE` in
striding mode and to 0 in the fast encoded path. -/
theorem post_recvs_threshold (cfg : Config) (uf : Bool) (pr rr : Int)
    (n : Nat) (st : RecvState) :
    (cfg.kDumb = true →
      (st.recvs_to_post + n < cfg.kStridesPerWQE →
        (post_recvs cfg uf pr rr n st).posts = [] ∧
        (post_recvs cfg uf pr rr n st).state.recvs_to_post =
          st.recvs_to_post + n ∧
        (post_recvs cfg uf pr rr n st).state.mp_sge_idx = st.mp_sge_idx ∧
        (post_recvs cfg uf pr rr n st).state.recv_head = st.recv_head) ∧
      (cfg.kStridesPerWQE ≤ st.recvs_to_post + n →
        (post_recvs cfg uf pr rr n st).posts.length = 1 ∧
        (post_recvs cfg uf pr rr n st).state.recvs_to_post =
          st.recvs_to_post + n - cfg.kStridesPerWQE)) ∧
    (cfg.kDumb = false → uf = true →
      (st.recvs_to_post + n < cfg.kRecvSlack →
        (post_recvs cfg uf pr rr n st).posts = [] ∧
        (post_recvs cfg uf pr rr n st).state.recvs_to_post =
          st.recvs_to_post + n ∧
        (post_recvs cfg uf pr rr n st).state.mp_sge_idx = st.mp_sge_idx ∧
        (post_recvs cfg uf pr rr n st).state.recv_head = st.recv_head) ∧
      (cfg.kRecvSlack ≤ st.recvs_to_post + n → pr = 0 →
        (post_recvs cfg uf pr rr n st).posts.length = 1 ∧
        (post_recvs cfg uf pr rr n st).state.recvs_to_post = 0)) := by
  refine ⟨fun hd => ⟨fun hlt => ?_, fun hge => ?_⟩,
          fun hd huf => ⟨fun hlt => ?_, fun hge hpr => ?_⟩⟩
  · simp [post_recvs, hd, if_pos hlt]
  · have hnlt : ¬(st.recvs_to_post + n < cfg.kStridesPerWQE) := by omega
    simp [post_recvs, hd, hnlt]
  · simp [post_recvs, hd, if_pos hlt]
  · have hnlt : ¬(st.recvs_to_post + n < cfg.kRecvSlack) := by omega
    simp [post_recvs, hd, huf, hnlt, hpr]

/-- Witness for claim C6 at concrete inputs: below-threshold and
triggering calls in both the striding mode and the fast path. -/
theorem post_recvs_threshold_w :
    (post_recvs cfgDumb true 0 0 1 recvFresh).posts = [] ∧
    (post_recvs cfgDumb true 0 0 4 recvFresh).posts.length = 1 ∧
    (post_recvs cfgDumb true 0 0 4 recvFresh).state.recvs_to_post =
      recvFresh.recvs_to_post + 4 - cfgDumb.kStridesPerWQE ∧
    (post_recvs cfgTx true 0 0 1 recvFresh).posts = [] ∧
    (post_recvs cfgTx true 0 0 2 recvFresh).posts.length = 1 ∧
    (post_recvs cfgTx true 0 0 2 recvFresh).state.recvs_to_post = 0 := by
  have h1 := post_recvs_threshold cfgDumb true 0 0 1 recvFresh
  have h2 := post_recvs_threshold cfgDumb true 0 0 4 recvFresh
  have h3 := post_recvs_threshold cfgTx true 0 0 1 recvFresh
  have h4 := post_recvs_threshold cfgTx true 0 0 2 recvFresh
  exact ⟨((h1.1 rfl).1 (by decide)).1, ((h2.1 rfl).2 (by decide)).1,
         ((h2.1 rfl).2 (by decide)).2, ((h3.2 rfl rfl).1 (by decide)).1,
         ((h4.2 rfl rfl).2 (by decide) rfl).1,
         ((h4.2 rfl rfl).2 (by decide) rfl).2⟩

/-- Claim C7: a nonzero return code from `ibv_post_send` (in `tx_burst`)
or `ibv_post_recv` (in `post_recvs`) is fatal: the process terminates,
the submission is attempted exactly once (no retry), and the failure is
never surfaced to the caller as a recoverable value. -/
theorem fatal_post_failure (cfgT : Config) (sig : Nat → Nat) (ret : Int)
    (items : List TxItem) (st0 : TxState) (hret : ret ≠ 0)
    (cfgR : Config) (uf : Bool) (pr rr : Int) (n : Nat) (rst : RecvState)
    (hpr : pr ≠ 0) (hnd : cfgR.kDumb = false)
    (hth : cfgR.kRecvSlack ≤ rst.recvs_to_post + n) :
    ((tx_burst cfgT sig ret items st0).fatal = true ∧
     (tx_burst cfgT sig ret items st0).post_calls = 1) ∧
    ((post_recvs cfgR uf pr rr n rst).fatal = true ∧
     (post_recvs cfgR uf pr rr n rst).posts.length = 1) := by
  have hnlt : ¬(rst.recvs_to_post + n < cfgR.kRecvSlack) := by omega
  refine ⟨⟨?_, ?_⟩, ?_⟩
  · simp [tx_burst, hret]
  · simp [tx_burst, hret]
  · cases uf with
    | true => constructor <;> simp [post_recvs, hnd, hnlt, hpr]
    | false => constructor <;> simp [post_recvs, hnd, hnlt, hpr]

/-- Witness for claim C7 at concrete inputs: `ibv_post_send` returning 5
and `ibv_post_recv` returning 7. -/
theorem fatal_post_failure_w :
    (tx_burst cfgTx sig0 5 items2 txSt0).fatal = true ∧
    (post_recvs cfgTx true 7 0 2 recvFresh).fatal = true := by
  have h := fatal_post_failure cfgTx sig0 5 items2 txSt0 (by decide)
    cfgTx true 7 0 2 recvFresh (by decide) rfl (by decide)
  exact ⟨h.1.1, h.2.1⟩

/-- Counterexample to claim C8 as stated: `post_recvs(0)` is not a no-op
for every transport state.  In striding mode with stride unit 2 and ring
capacity 8, a single legal call `post_recvs(4)` from a fresh state posts
once and leaves 2 pending; the follow-up `post_recvs(0)` then reaches the
threshold again, performs a hardware post, and changes the pending
counter from 2 to 0. -/
theorem post_recvs_zero_cex :
    (post_recvs cfgDumb true 0 0 4 recvFresh).state.recvs_to_post = 2 ∧
    (post_recvs cfgDumb true 0 0 0
      ((post_recvs cfgDumb true 0 0 4 recvFresh).state)).posts.length = 1 ∧
    (post_recvs cfgDumb true 0 0 0
      ((post_recvs cfgDumb true 0 0 4 recvFresh).state)).state.recvs_to_post
      = 0 := by
  exact ⟨rfl, rfl, rfl⟩

/-- Claim C8, amended: `post_recvs(0)` performs no hardware post and
leaves the pending counter and all indices unchanged provided the pending
count is below the active posting threshold (in striding mode, leftover
pending of at least one stride unit instead triggers a post). -/
theorem post_recvs_zero_noop (cfg : Config) (uf : Bool) (pr rr : Int)
    (st : RecvState)
    (hthr : (cfg.kDumb = true → st.recvs_to_post < cfg.kStridesPerWQE) ∧
            (cfg.kDumb = false → st.recvs_to_post < cfg.kRecvSlack)) :
    (post_recvs cfg uf pr rr 0 st).posts = [] ∧
    (post_recvs cfg uf pr rr 0 st).fatal = false ∧
    (post_recvs cfg uf pr rr 0 st).state.recvs_to_post = st.recvs_to_post ∧
    (post_recvs cfg uf pr rr 0 st).state.mp_sge_idx = st.mp_sge_idx ∧
    (post_recvs cfg uf pr rr 0 st).state.recv_head = st.recv_head ∧
    ∀ j, (post_recvs cfg uf pr rr 0 st).state.recv_wr_next j =
      st.recv_wr_next j := by
  cases hd : cfg.kDumb with
  | true => simp [post_recvs, hd, if_pos (hthr.1 hd)]
  | false => simp [post_recvs, hd, if_pos (hthr.2 hd)]

/-- Witness for the amended claim C8 at a concrete input. -/
theorem post_recvs_zero_noop_w :
    (post_recvs cfgDumb true 0 0 0 recvRing).posts = [] ∧
    (post_recvs cfgDumb true 0 0 0 recvRing).state.recvs_to_post =
      recvRing.recvs_to_post := by
  have h := post_recvs_zero_noop cfgDumb true 0 0 recvRing
    ⟨fun _ => by decide, fun _ => by decide⟩
  exact ⟨h.1, h.2.2.1⟩

/-- Counterexample to claim C9 as stated: in the compatibility path, a
triggering call's splice range and head advance are governed by the
accumulated pending count, not by `num_recvs`.  With slack threshold 2
and ring depth 8, after a non-posting `post_recvs(1)` a second
`post_recvs(1)` triggers: it splices descriptors 0 through 1 (two
entries) and advances the head from 0 to 2, whereas advancing by
`num_recvs = 1` would give head 1. -/
theorem post_recvs_compat_cex :
    (post_recvs cfgTx false 0 0 1
      ((post_recvs cfgTx false 0 0 1 recvRing).state)).posts =
      [RecvPost.chain 0 1] ∧
    (post_recvs cfgTx false 0 0 1
      ((post_recvs cfgTx false 0 0 1 recvRing).state)).state.recv_head = 2 ∧
    (recvRing.recv_head + 1) % cfgTx.kRQDepth = 1 ∧ (2 : Nat) ≠ 1 := by
  exact ⟨rfl, rfl, rfl, by decide⟩

/-- Claim C9, amended: in the compatibility submission path, a triggering
`post_recvs` call splices out the sub-range of the pre-linked
receive-descriptor ring starting at the current head and spanning the
accumulated pending count (`recvs_to_post` after accumulation, not
`num_recvs`) entries, handling wraparound; posts it once; restores the
ring links; advances the head index by the accumulated count modulo the
ring depth; and resets the pending counter to zero. -/
theorem post_recvs_compat_splice (cfg : Config) (pr rr : Int) (n : Nat)
    (st : RecvState) (hnd : cfg.kDumb = false)
    (hth : cfg.kRecvSlack ≤ st.recvs_to_post + n) (hpr : pr = 0)
    (h1 : 1 ≤ st.recvs_to_post + n)
    (hD : st.recvs_to_post + n ≤ cfg.kRQDepth)
    (hh : st.recv_head < cfg.kRQDepth)
    (hDsz : 2 * cfg.kRQDepth ≤ SIZE_T_MOD) :
    (post_recvs cfg false pr rr n st).posts =
      [RecvPost.chain st.recv_head
        ((st.recv_head + (st.recvs_to_post + n) - 1) % cfg.kRQDepth)] ∧
    (post_recvs cfg false pr rr n st).state.recv_head =
      (st.recv_head + (st.recvs_to_post + n)) % cfg.kRQDepth ∧
    (post_recvs cfg false pr rr n st).state.recvs_to_post = 0 ∧
    (∀ j, (post_recvs cfg false pr rr n st).state.recv_wr_next j =
      st.recv_wr_next j) ∧
    (post_recvs cfg false pr rr n st).fatal = false := by
  have hnlt : ¬(st.recvs_to_post + n < cfg.kRecvSlack) := by omega
  have hM : SIZE_T_MOD = 18446744073709551616 := rfl
  have hy : add64 st.recv_head (sub64 (st.recvs_to_post + n) 1) =
      st.recv_head + (st.recvs_to_post + n) - 1 := by
    rw [sub64_eq _ _ h1 (by omega), add64_eq _ _ (by omega)]
    omega
  have hmod : (if cfg.kRQDepth ≤ st.recv_head + (st.recvs_to_post + n) - 1
      then st.recv_head + (st.recvs_to_post + n) - 1 - cfg.kRQDepth
      else st.recv_head + (st.recvs_to_post + n) - 1) =
      (st.recv_head + (st.recvs_to_post + n) - 1) % cfg.kRQDepth := by
    by_cases hc : cfg.kRQDepth ≤ st.recv_head + (st.recvs_to_post + n) - 1
    · rw [if_pos hc, Nat.mod_eq_sub_mod hc, Nat.mod_eq_of_lt (by omega)]
    · rw [if_neg hc, Nat.mod_eq_of_lt (by omega)]
  simp only [post_recvs, hnd, Bool.false_eq_true, if_false, if_neg hnlt,
    hpr, hy, hmod]
  norm_num
  constructor
  · have harg : st.recv_head + (st.recvs_to_post + n) - 1 + 1 =
        st.recv_head + (st.recvs_to_post + n) := by omega
    rw [harg]
  · intro j
    simp only [upd]
    by_cases hj : j = (st.recv_head + (st.recvs_to_post + n) - 1) %
      cfg.kRQDepth
    · simp [hj]
    · simp [hj]

/-- Witness for the amended claim C9 at a concrete input: head 0, three
units accumulated, ring depth 8. -/
theorem post_recvs_compat_splice_w :
    (post_recvs cfgTx false 0 0 3 recvRing).state.recv_head =
      (recvRing.recv_head + (recvRing.recvs_to_post + 3)) % cfgTx.kRQDepth ∧
    (post_recvs cfgTx false 0 0 3 recvRing).state.recvs_to_post = 0 := by
  have h := post_recvs_compat_splice cfgTx 0 0 3 recvRing rfl (by decide)
    rfl (by decide) (by decide) (by decide) (by decide)
  exact ⟨h.2.1, h.2.2.1⟩

/-- Claim C1: for a batch of `n ∈ [1, kPostlist]` descriptors, `tx_burst`
produces one output per descriptor and configures, for each descriptor in
order, exactly 1 scatter-gather entry when its packet index is 0 and
exactly 2 entries otherwise; for a continuation packet the second entry
covers the data slice at offset `index * kMaxDataPerPkt` with length
`min kMaxDataPerPkt (remaining message bytes)`, and in both cases the
computed packet size equals the sum of the configured entry lengths. -/
theorem tx_burst_sge_shape (cfg : Config) (sig : Nat → Nat) (post_ret : Int)
    (items : List TxItem) (st0 : TxState)
    (hn1 : 1 ≤ items.length) (hn2 : items.length ≤ cfg.kPostlist)
    (k : Nat) (hk : k < items.length)
    (hds : items[k].msg_buffer.data_size < SIZE_T_MOD)
    (hoff : items[k].pkt_index * cfg.kMaxDataPerPkt ≤
            items[k].msg_buffer.data_size)
    (hhdr : cfg.sizeof_pkthdr + cfg.kMaxDataPerPkt < SIZE_T_MOD) :
    (tx_burst cfg sig post_ret items st0).outs.length = items.length ∧
    (items[k].pkt_index = 0 →
      ((tx_burst cfg sig post_ret items st0).state.send_wr k).num_sge = 1 ∧
      ∀ out, (tx_burst cfg sig post_ret items st0).outs[k]? = some out →
        out.1 =
          ((tx_burst cfg sig post_ret items st0).state.send_sgl k).1.length) ∧
    (items[k].pkt_index ≠ 0 →
      ((tx_burst cfg sig post_ret items st0).state.send_wr k).num_sge = 2 ∧
      ((tx_burst cfg sig post_ret items st0).state.send_sgl k).2.addr =
        SgeAddr.buf (items[k].pkt_index * cfg.kMaxDataPerPkt) ∧
      ((tx_burst cfg sig post_ret items st0).state.send_sgl k).2.length =
        min cfg.kMaxDataPerPkt
          (items[k].msg_buffer.data_size -
            items[k].pkt_index * cfg.kMaxDataPerPkt) ∧
      ∀ out, (tx_burst cfg sig post_ret items st0).outs[k]? = some out →
        out.1 =
          ((tx_burst cfg sig post_ret items st0).state.send_sgl k).1.length +
          ((tx_burst cfg sig post_ret items st0).state.send_sgl k).2.length) := by
  have hg := tx_burst_go_get cfg sig items 0 st0 k hk
  simp only [Nat.zero_add, List.get_eq_getElem] at hg
  have houts := tx_burst_outs_eq cfg sig post_ret items st0
  have hns := tx_burst_num_sge_eq cfg sig post_ret items st0 k
  have hsg := tx_burst_sgl_eq cfg sig post_ret items st0 k
  have hmul : mul64 items[k].pkt_index cfg.kMaxDataPerPkt =
      items[k].pkt_index * cfg.kMaxDataPerPkt :=
    mul64_eq _ _ (by omega)
  have hsub : sub64 items[k].msg_buffer.data_size
      (items[k].pkt_index * cfg.kMaxDataPerPkt) =
      items[k].msg_buffer.data_size -
        items[k].pkt_index * cfg.kMaxDataPerPkt :=
    sub64_eq _ _ hoff hds
  have hadd : add64 cfg.sizeof_pkthdr
      (min cfg.kMaxDataPerPkt
        (items[k].msg_buffer.data_size -
          items[k].pkt_index * cfg.kMaxDataPerPkt)) =
      cfg.sizeof_pkthdr +
        min cfg.kMaxDataPerPkt
          (items[k].msg_buffer.data_size -
            items[k].pkt_index * cfg.kMaxDataPerPkt) :=
    add64_eq _ _ (by omega)
  refine ⟨?_, fun hz => ⟨?_, ?_⟩, fun hnz => ⟨?_, ?_, ?_, ?_⟩⟩
  · rw [houts, tx_burst_go_len]
  · rw [hns, hg.1]
    simp [process_item, hz]
  · intro out hout
    rw [houts, hg.2.2] at hout
    injection hout with hout
    subst hout
    rw [hsg, hg.2.1]
    simp [process_item, hz]
  · rw [hns, hg.1]
    simp [process_item, hnz]
  · rw [hsg, hg.2.1]
    simp [process_item, hnz, hmul]
  · rw [hsg, hg.2.1]
    simp [process_item, hnz, hmul, hsub]
  · intro out hout
    rw [houts, hg.2.2] at hout
    injection hout with hout
    subst hout
    rw [hsg, hg.2.1]
    simp [process_item, hnz, hmul, hsub, hadd]

/-- Witness for claim C1 at a concrete input: a 2-descriptor batch whose
second descriptor is a continuation packet of a 2500-byte message with
`kMaxDataPerPkt = 1000`, so its data slice starts at offset 1000. -/
theorem tx_burst_sge_shape_w :
    ((tx_burst cfgTx sig0 0 items2 txSt0).state.send_wr 1).num_sge = 2 ∧
    ((tx_burst cfgTx sig0 0 items2 txSt0).state.send_sgl 1).2.addr =
      SgeAddr.buf 1000 ∧
    ((tx_burst cfgTx sig0 0 items2 txSt0).state.send_wr 0).num_sge = 1 := by
  have h := tx_burst_sge_shape cfgTx sig0 0 items2 txSt0 (by decide)
    (by decide) 1 (by decide) (by decide) (by decide) (by decide)
  have h0 := tx_burst_sge_shape cfgTx sig0 0 items2 txSt0 (by decide)
    (by decide) 0 (by decide) (by decide) (by decide) (by decide)
  have hcont := h.2.2 (by decide)
  refine ⟨hcont.1, ?_, (h0.2.1 (by decide)).1⟩
  rw [hcont.2.1]
  decide

/-- Claim C2: every packet constructed by `tx_burst` has its stamped IPv4
total-length field equal to `htons (packet_size - 14)` and its stamped
UDP length field equal to `htons (packet_size - 14 - 20)` (network byte
order), where `packet_size` is that descriptor's computed packet size. -/
theorem tx_burst_header_lengths (cfg : Config) (sig : Nat → Nat)
    (post_ret : Int) (items : List TxItem) (st0 : TxState)
    (k : Nat) (hk : k < items.length) (out : Nat × PktHdrStamp)
    (hout : (tx_burst cfg sig post_ret items st0).outs[k]? = some out)
    (h34 : 34 ≤ out.1) (hsz : out.1 < SIZE_T_MOD) :
    out.2.ipv4_tot_len = htons (out.1 - 14) ∧
    out.2.udp_len = htons (out.1 - 14 - 20) := by
  have hg := tx_burst_go_get cfg sig items 0 st0 k hk
  simp only [Nat.zero_add, List.get_eq_getElem] at hg
  rw [tx_burst_outs_eq, hg.2.2] at hout
  injection hout with hout
  have hfst : out.1 = (process_item cfg (sig k) items[k]
      (st0.send_wr k) (st0.send_sgl k)).pkt_size := by rw [← hout]
  have hsnd : out.2 = (process_item cfg (sig k) items[k]
      (st0.send_wr k) (st0.send_sgl k)).stamp := by rw [← hout]
  have h14 : sub64 out.1 sizeof_eth_hdr = out.1 - 14 :=
    sub64_eq _ _ (by simp only [sizeof_eth_hdr]; omega) hsz
  have h20 : sub64 (out.1 - 14) sizeof_ipv4_hdr = out.1 - 14 - 20 :=
    sub64_eq _ _ (by simp only [sizeof_ipv4_hdr]; omega)
      (by simp only [SIZE_T_MOD] at hsz ⊢; omega)
  rw [hsnd, process_item_stamp, ← hfst]
  constructor
  · simp only [mk_stamp, h14]
  · simp only [mk_stamp, h14, h20]

/-- Witness for claim C2 at a concrete input: packet 0 of a 2500-byte
message with a 48-byte packet header and 1000-byte data cap has computed
packet size 1048, stamped IPv4 total length `htons 1034` and stamped UDP
length `htons 1014`. -/
theorem tx_burst_header_lengths_w :
    (mk_stamp cfgTx item0 1048).ipv4_tot_len = htons 1034 ∧
    (mk_stamp cfgTx item0 1048).udp_len = htons 1014 := by
  have h := tx_burst_header_lengths cfgTx sig0 0 items2 txSt0 0 (by decide)
    ((1048 : Nat), mk_stamp cfgTx item0 1048) rfl (by decide) (by decide)
  exact ⟨h.1, h.2⟩

/-- Claim C3: a `tx_burst` call whose hardware post succeeds restores the
send descriptor chain on return — `send_wr[i].next = &send_wr[i + 1]` for
every `i` below the array's declared capacity (`kPostlist + 1`) minus
one, exactly as before the call — even though the chain is temporarily
terminated at descriptor `num_pkts - 1` at the moment of the post. -/
theorem tx_burst_chain_restored (cfg : Config) (sig : Nat → Nat)
    (items : List TxItem) (st0 : TxState)
    (hn1 : 1 ≤ items.length) (hn2 : items.length ≤ cfg.kPostlist)
    (hcapM : cfg.kPostlist < SIZE_T_MOD)
    (hchain : ∀ i, i + 1 < cfg.kPostlist + 1 →
      (st0.send_wr i).next = some (i + 1)) :
    (∀ i, i + 1 < cfg.kPostlist + 1 →
      ((tx_burst cfg sig 0 items st0).state.send_wr i).next = some (i + 1)) ∧
    ((tx_burst_post_state cfg sig items st0).send_wr
        (items.length - 1)).next = none := by
  have hli : sub64 items.length 1 = items.length - 1 :=
    sub64_eq _ _ hn1 (by omega)
  constructor
  · intro i hi
    have hnx := tx_burst_go_next cfg sig items 0 st0 i
    by_cases hieq : i = items.length - 1
    · have hred : ((tx_burst cfg sig 0 items st0).state.send_wr i).next =
          some items.length := by
        simp [tx_burst, upd, hli, hieq]
      rw [hred]
      have hlen : items.length = i + 1 := by omega
      rw [hlen]
    · have hred : ((tx_burst cfg sig 0 items st0).state.send_wr i).next =
          ((tx_burst_go cfg sig items 0 st0).1.send_wr i).next := by
        simp [tx_burst, upd, hli, hieq]
      rw [hred, hnx]
      exact hchain i hi
  · simp [tx_burst_post_state, upd, hli]

/-- Witness for claim C3 at a concrete input: a 2-descriptor batch over a
17-slot pre-linked descriptor array; after the call the link of slot 5 is
intact and the link of slot 1 (= `num_pkts - 1`) is restored, while at
post time slot 1's link was null. -/
theorem tx_burst_chain_restored_w :
    ((tx_burst cfgTx sig0 0 items2 txSt0).state.send_wr 5).next = some 6 ∧
    ((tx_burst cfgTx sig0 0 items2 txSt0).state.send_wr 1).next = some 2 ∧
    ((tx_burst_post_state cfgTx sig0 items2 txSt0).send_wr 1).next = none := by
  have h := tx_burst_chain_restored cfgTx sig0 items2 txSt0 (by decide)
    (by decide) (by decide) (fun i _ => rfl)
  exact ⟨h.1 5 (by decide), h.1 1 (by decide), h.2⟩

/-- Claim C10: `tx_burst` has the unstated precondition `num_pkts ≥ 1`.
For `1 ≤ num_pkts ≤ kPostlist` every `send_wr` index it touches — the
loop indices, the chain-breaking and chain-restoring writes at
`num_pkts - 1`, and the restore target `num_pkts` — is below the declared
capacity `kPostlist + 1`; for `num_pkts = 0` the `size_t` index
`num_pkts - 1` wraps to `2 ^ 64 - 1`, which is out of bounds. -/
theorem tx_burst_bounds (cfg : Config) (cap : Nat)
    (hcap : cap = cfg.kPostlist + 1) (hcapM : cap < SIZE_T_MOD) (n : Nat) :
    ((1 ≤ n → n ≤ cfg.kPostlist →
        ∀ idx ∈ tx_burst_wr_indices n, idx < cap) ∧
     (sub64 0 1 = SIZE_T_MOD - 1 ∧ ¬ sub64 0 1 < cap)) := by
  have hz : sub64 0 1 = SIZE_T_MOD - 1 := by decide
  have hM : SIZE_T_MOD = 18446744073709551616 := rfl
  refine ⟨fun h1 h2 idx hidx => ?_, hz, by omega⟩
  have hs : sub64 n 1 = n - 1 := sub64_eq _ _ h1 (by omega)
  simp only [tx_burst_wr_indices, List.mem_append, List.mem_range,
    List.mem_cons, List.mem_nil_iff, or_false] at hidx
  rcases hidx with h | h | h | h
  · omega
  · rw [h, hs]; omega
  · rw [h, hs]; omega
  · omega

/-- Witness for claim C10 at a concrete input: capacity 17
(`kPostlist = 16`), batch size 3 in bounds, and the wrapped index for
batch size 0 out of bounds. -/
theorem tx_burst_bounds_w : sub64 3 1 < 17 ∧ ¬ sub64 0 1 < 17 := by
  have h := tx_burst_bounds cfgTx 17 rfl (by decide) 3
  exact ⟨h.1 (by decide) (by decide) (sub64 3 1) (by decide), h.2.2⟩

end erpc
